import Mathlib

/-!
Verification of the context-assembly core of the Codebase Copilot editor
extension: file discovery with ignore filtering (`getAllCodeFiles`),
lexical relevance scoring (`calculateRelevanceScore`), ranking
(`getRelevantFiles`) and the four-mode context builder
(`buildContextFromSelection` and its per-mode helpers).

The definitions below are a shallow embedding of the TypeScript source
(`codebaseAnalyzer.ts`, `chatProvider.ts`).  JavaScript strings are
modelled as Lean `String` (a list of characters); the filesystem visible
to the directory walk is modelled as a finite tree; the gitignore engine
(the external `ignore` npm package) is modelled as an abstract boolean
matcher `ign : String → Bool`, exactly the interface the source consumes;
and the ECMAScript `RegExp` primitive that `calculateRelevanceScore` feeds
raw query tokens to is modelled as an abstract `RegexEngine` whose
construction step can fail (a thrown `SyntaxError`), with a concrete
sample engine covering the pattern fragment the concrete theorems use.
The `maxContextFiles` setting is a JS number that can be negative, so it
is embedded as `Int`, with `Array.prototype.slice`'s negative-end
semantics spelled out.  All definitions are structurally recursive so
that they evaluate on concrete inputs.
-/

namespace CodebaseCopilot

/-- JS `String.prototype.toLowerCase()` (ASCII case mapping). -/
def lowerStr (s : String) : String := ⟨s.data.map Char.toLower⟩

/-- JS `String.prototype.substring(0, n)` (and `.substring(n)` via `strDrop`). -/
def strTake (s : String) (n : Nat) : String := ⟨s.data.take n⟩

/-- JS `String.prototype.substring(n)`. -/
def strDrop (s : String) (n : Nat) : String := ⟨s.data.drop n⟩

/-- JS `String.prototype.trim()`: strip whitespace from both ends. -/
def strTrim (s : String) : String :=
  ⟨((s.data.dropWhile Char.isWhitespace).reverse.dropWhile Char.isWhitespace).reverse⟩

/-- Concatenation of a list of strings, in order (models repeated `+=`). -/
def strJoin : List String → String
  | [] => ""
  | s :: rest => s ++ strJoin rest

/-- Does `hay` contain `pat` as a contiguous sublist?  Helper for `jsIncludes`. -/
def listContainsSub (pat : List Char) : List Char → Bool
  | [] => pat.isEmpty
  | c :: rest => pat.isPrefixOf (c :: rest) || listContainsSub pat rest

/-- JS `String.prototype.includes(pat)`; in particular `s.includes("")` is `true`. -/
def jsIncludes (s pat : String) : Bool := listContainsSub pat.data s.data

/-- Fuel-driven scan counting non-overlapping, left-to-right occurrences of
`pat` in the remaining text.  The fuel (initialised to the text length in
`countOccur`) only makes the recursion structural; it never cuts a scan short. -/
def countMatchesAux (pat : List Char) : Nat → List Char → Nat
  | 0, _ => 0
  | _, [] => 0
  | fuel + 1, c :: rest =>
    if pat.isPrefixOf (c :: rest) then
      countMatchesAux pat fuel (rest.drop (pat.length - 1)) + 1
    else
      countMatchesAux pat fuel rest

/-- Number of matches of `(content.match(new RegExp(word, 'gi')) || []).length`
for a metacharacter-free `word`: the count of non-overlapping occurrences of
the pattern, scanning left to right (the semantics of a global regex match
with a literal pattern). -/
def countOccur (pat hay : List Char) : Nat := countMatchesAux pat hay.length hay

/-- The ECMAScript regular-expression syntax characters.  A token containing
none of them is matched by `RegExp` exactly as a literal string. -/
def regexMetachars : List Char :=
  ['\\', '^', '$', '.', '|', '?', '*', '+', '(', ')', '[', ']', '{', '}']

/-- Tokens free of regex metacharacters: on these, `new RegExp(tok, 'gi')`
always succeeds and global matching is literal non-overlapping counting. -/
def isLiteralToken (w : String) : Bool :=
  w.data.all (fun c => !regexMetachars.contains c)

/-- Model of the external ECMAScript `RegExp` primitive, analogous to the
abstract ignore matcher: `build pat` is `new RegExp(pat, 'gi')` —
`none` models the constructor throwing `SyntaxError` on an invalid
pattern, and `some m` models successful construction, where `m content`
is `(content.match(regex) || []).length`, the number of global matches on
`content`.  The source applies it to an already-lowercased content and
lowercased tokens, so the `i` flag adds nothing there. -/
structure RegexEngine where
  build : String → Option (String → Nat)

/-- Conformance of an engine to the literal fragment of ECMAScript regexes:
a metacharacter-free pattern always constructs, and its global match count
is the non-overlapping left-to-right occurrence count. -/
def RegexEngine.LiteralFaithful (E : RegexEngine) : Prop :=
  ∀ pat : String, isLiteralToken pat = true →
    ∃ m, E.build pat = some m
      ∧ ∀ content : String, m content = countOccur pat.data content.data

/-- Does the pattern prefix-match the text, where `'.'` matches any
character except a line terminator (the ECMAScript `.` without the `s`
flag) and every other character matches itself? -/
def dotMatchesPrefix : List Char → List Char → Bool
  | [], _ => true
  | _ :: _, [] => false
  | p :: ps, c :: cs =>
    (if p == '.' then !(c == '\n' || c == '\r' || c == '\u2028' || c == '\u2029')
     else p == c)
      && dotMatchesPrefix ps cs

/-- Fuel-driven non-overlapping global match count for patterns made of
literal characters and the `.` wildcard (fuel as in `countMatchesAux`). -/
def countDotMatchesAux (pat : List Char) : Nat → List Char → Nat
  | 0, _ => 0
  | _, [] => 0
  | fuel + 1, c :: rest =>
    if dotMatchesPrefix pat (c :: rest) then
      countDotMatchesAux pat fuel (rest.drop (pat.length - 1)) + 1
    else
      countDotMatchesAux pat fuel rest

/-- Global match count of a literal-and-dot pattern, scanning left to
right without overlap — the behavior of a global `RegExp` whose only
metacharacter is `.`. -/
def countDotMatches (pat hay : List Char) : Nat :=
  countDotMatchesAux pat hay.length hay

/-- Patterns whose only metacharacter is the `.` wildcard. -/
def dotFragmentToken (w : String) : Bool :=
  w.data.all (fun c => c == '.' || !regexMetachars.contains c)

/-- A concrete regex engine for instantiating the engine-parametric
theorems, covering exactly the pattern fragment at which the concrete
theorems below apply it: metacharacter-free patterns (literal matching),
patterns whose only metacharacter is `.` (wildcard matching), and
rejection of every other pattern — which on those concrete uses (such as
the unbalanced `"foo("`, a genuine `SyntaxError` in ECMAScript) agrees
with `new RegExp`. -/
def sampleRegexEngine : RegexEngine :=
  ⟨fun pat =>
    if isLiteralToken pat then some (fun content => countOccur pat.data content.data)
    else if dotFragmentToken pat then some (fun content => countDotMatches pat.data content.data)
    else none⟩

/-- Maximal non-whitespace runs of a character list; `acc` is the current run,
reversed.  Models splitting on `/\s+/` (empty pieces are immaterial here
because every caller filters by token length afterwards). -/
def wordRunsAux : List Char → List Char → List (List Char)
  | acc, [] => if acc.isEmpty then [] else [acc.reverse]
  | acc, c :: rest =>
    if c.isWhitespace then
      if acc.isEmpty then wordRunsAux [] rest else acc.reverse :: wordRunsAux [] rest
    else
      wordRunsAux (c :: acc) rest

/-- Node `path.extname`: the extension of the basename, from its last dot;
empty when there is no dot or when the only dot starts the name (dotfiles). -/
def extname (p : String) : String :=
  let base := (p.data.reverse.takeWhile (fun c => c ≠ '/')).reverse
  let revTail := base.reverse.takeWhile (fun c => c ≠ '.')
  if revTail.length + 1 < base.length then
    ⟨base.drop (base.length - revTail.length - 1)⟩
  else ""

/-- Workspace-relative path of an entry named `item` under relative prefix `rel`
(`path.relative(workspaceRoot, fullPath)` with POSIX separators). -/
def joinPath (rel item : String) : String :=
  if rel = "" then item else rel ++ "/" ++ item

/-- `interface CodeFile { path: string; content: string; size: number }`
(codebaseAnalyzer.ts): one discovered file. -/
structure CodeFile where
  path : String
  content : String
  size : Nat
deriving DecidableEq, Repr

/-- The element of the `scoredFiles` array: `{ ...file, score }`. -/
structure ScoredFile extends CodeFile where
  score : Nat
deriving DecidableEq, Repr

mutual
/-- One entry of the modelled workspace filesystem: a regular file with its
text content, or a directory with its entries in `readdirSync` order. -/
inductive FSEntry where
  | file (name content : String) : FSEntry
  | dir (name : String) (entries : FSList) : FSEntry
/-- A directory listing. -/
inductive FSList where
  | nil : FSList
  | cons (e : FSEntry) (rest : FSList) : FSList
end

/-- The `codeExtensions` allow-list of `getAllCodeFiles`. -/
def codeExtensions : List String :=
  [".js", ".ts", ".jsx", ".tsx",
   ".py", ".java", ".cpp", ".c", ".h",
   ".cs", ".go", ".rs", ".php", ".rb",
   ".swift", ".kt", ".scala", ".clj",
   ".html", ".css", ".scss", ".sass",
   ".json", ".xml", ".yaml", ".yml",
   ".md", ".txt", ".sh", ".bat"]

mutual
/-- The body of `searchFiles` for a single directory entry: skip it when the
ignore filter matches its relative path; recurse into directories; for files,
keep those whose (lowercased) extension is allow-listed and whose content is
under the 50 000-character cap, recording `size = content.length`. -/
def fsEntryFiles (ign : String → Bool) (rel : String) : FSEntry → List CodeFile
  | .file name content =>
    let relativePath := joinPath rel name
    if ign relativePath then []
    else if codeExtensions.contains (lowerStr (extname name)) then
      if content.length < 50000 then [⟨relativePath, content, content.length⟩] else []
    else []
  | .dir name entries =>
    let relativePath := joinPath rel name
    if ign relativePath then []
    else fsListFiles ign relativePath entries
/-- `searchFiles` over a directory listing, concatenating results in order. -/
def fsListFiles (ign : String → Bool) (rel : String) : FSList → List CodeFile
  | .nil => []
  | .cons e rest => fsEntryFiles ign rel e ++ fsListFiles ign rel rest
end

/-- `getAllCodeFiles` (codebaseAnalyzer.ts): depth-first walk of the workspace
root.  `ign` is the `ignore` package filter (defaults plus `.gitignore`),
queried on every workspace-relative path exactly as in the source. -/
def getAllCodeFiles (ign : String → Bool) (root : FSList) : List CodeFile :=
  fsListFiles ign "" root

/-- `query.toLowerCase().split(/\s+/).filter(word => word.length > 2)`. -/
def scoreQueryWords (query : String) : List String :=
  ((wordRunsAux [] (lowerStr query).data).map (fun cs => String.mk cs)).filter
    (fun w => w.length > 2)

/-- The content pass of `calculateRelevanceScore`: for each token in order,
construct `new RegExp(word, 'gi')` through the engine — a construction
failure is the thrown `SyntaxError`, aborting the whole computation — and
otherwise add the global match count on the (lowercased) content, capped
at 5. -/
def contentPass (E : RegexEngine) (content : String) : List String → Nat → Option Nat
  | [], score => some score
  | word :: rest, score =>
    match E.build word with
    | none => none
    | some m => contentPass E content rest (score + min (m content) 5)

/-- `calculateRelevanceScore` (codebaseAnalyzer.ts): three accumulation passes
over the query tokens — +10 per token contained in the lowercased path, +5 per
token containing the extension minus its dot, then the capped content-match
pass through the regex engine — and finally the small-file bonus.  The result
is `none` when the content pass throws (the raw token is handed to the
`RegExp` constructor unescaped), in which case the bonus code is never
reached. -/
def calculateRelevanceScore (E : RegexEngine) (file : CodeFile) (query : String) :
    Option Nat :=
  let queryWords := scoreQueryWords query
  let score0 : Nat := 0
  let score1 := queryWords.foldl
    (fun s word => if jsIncludes (lowerStr file.path) word then s + 10 else s) score0
  let fileExt := lowerStr (extname file.path)
  let score2 := queryWords.foldl
    (fun s word => if jsIncludes word (strDrop fileExt 1) then s + 5 else s) score1
  match contentPass E (lowerStr file.content) queryWords score2 with
  | none => none
  | some score3 =>
    some (if file.size < 1000 then score3 + 2
      else if file.size < 5000 then score3 + 1
      else score3)

/-- Modelled from the spec (§4.3), for comparison with the source scoring
function: the per-token contribution — +10 on a path substring match, +5 when
the token contains the extension minus its leading dot, plus the capped
case-insensitive content occurrence count. -/
def specTokenScore (file : CodeFile) (word : String) : Nat :=
  (if jsIncludes (lowerStr file.path) word then 10 else 0)
    + (if jsIncludes word (strDrop (lowerStr (extname file.path)) 1) then 5 else 0)
    + min (countOccur word.data (lowerStr file.content).data) 5

/-- Modelled from the spec (§4.3 step 5): the size bonus. -/
def specSizeBonus (size : Nat) : Nat :=
  if size < 1000 then 2 else if size < 5000 then 1 else 0

/-- Modelled from the spec (§4.3): total score = sum of the per-token
contributions over the tokenized query, plus the size bonus; no
normalization. -/
def specRelevanceScore (file : CodeFile) (query : String) : Nat :=
  ((scoreQueryWords query).map (specTokenScore file)).sum + specSizeBonus file.size

/-- Stable descending insertion: `a` goes in front of the first element whose
score does not exceed `a`'s, so earlier-listed files keep priority on ties. -/
def insertScored (a : ScoredFile) : List ScoredFile → List ScoredFile
  | [] => [a]
  | b :: l => if b.score ≤ a.score then a :: b :: l else b :: insertScored a l

/-- Model of `scoredFiles.sort((a, b) => b.score - a.score)`:
`Array.prototype.sort` is stable (ES2019), so the result is descending by
score with ties in original order — which is what this insertion sort
produces. -/
def sortByScoreDesc : List ScoredFile → List ScoredFile
  | [] => []
  | a :: l => insertScored a (sortByScoreDesc l)

/-- Scoring a file list in order, with the first thrown `SyntaxError`
aborting the map (the exception propagates out of
`allFiles.map(file => ({ ...file, score: calculateRelevanceScore(file,
query) }))`). -/
def mapScores (E : RegexEngine) (query : String) : List CodeFile → Option (List ScoredFile)
  | [] => some []
  | f :: fs =>
    match calculateRelevanceScore E f query with
    | none => none
    | some s =>
      match mapScores E query fs with
      | none => none
      | some rest => some (⟨f, s⟩ :: rest)

/-- The scoring step of `getRelevantFiles`: every discovered file paired with
its score, in discovery order; `none` when scoring throws on some file
(which, the token set depending only on the query, happens exactly when the
query has an invalid-regex token and at least one file was discovered). -/
def scoredDiscovery (E : RegexEngine) (root : FSList) (ign : String → Bool)
    (query : String) : Option (List ScoredFile) :=
  mapScores E query (getAllCodeFiles ign root)

/-- JS `Array.prototype.slice(0, k)` for a JS-number `k`: a non-negative end
index takes the first `k` elements (clamped to the length); a negative end
index counts from the end, keeping all but the last `|k|` elements (clamped
at zero). -/
def jsSlice {α : Type} (l : List α) (k : Int) : List α :=
  if k < 0 then l.take (l.length - k.natAbs) else l.take k.toNat

/-- `getRelevantFiles` (codebaseAnalyzer.ts): discover, score, stable-sort
descending, `slice(0, maxFiles)`.  `maxFiles` is a JS number and may be
negative (the `maxContextFiles` setting is user-controlled), hence `Int` and
`jsSlice`.  The source's early returns (missing workspace root, empty
discovery) coincide with this pipeline on an empty tree, and its `catch`
turns a scoring throw into the empty result — the `none` branch here. -/
def getRelevantFiles (E : RegexEngine) (root : FSList) (ign : String → Bool)
    (query : String) (maxFiles : Int) : List ScoredFile :=
  match scoredDiscovery E root ign query with
  | some scoredFiles => jsSlice (sortByScoreDesc scoredFiles) maxFiles
  | none => []

/-- The active editor state the assembler consumes: `getCurrentFileName()`
returns the basename `name`, `vscode.workspace.asRelativePath` yields
`relPath`, and `getCurrentFileContent()` returns `content` (which is the
empty string for an open empty document). -/
structure ActiveFile where
  relPath : String
  name : String
  content : String
deriving DecidableEq, Repr

/-- `ContextSelection.mode` (chatProvider.ts). -/
inductive ContextMode where
  | current | selected | auto | whole
deriving DecidableEq, Repr

/-- `interface ContextSelection { mode; selectedFiles }` (chatProvider.ts). -/
structure ContextSelection where
  mode : ContextMode
  selectedFiles : List String
deriving DecidableEq, Repr

/-- The `currentFileIndicators` array of `isQueryAboutCurrentFile`. -/
def currentFileIndicators : List String :=
  ["what does this do", "explain this", "how does this work", "what is this",
   "improve this", "fix this", "debug this", "this function", "this class",
   "this code"]

/-- `isQueryAboutCurrentFile` (chatProvider.ts): case-insensitive substring
tests against the active file's basename, two fixed phrases, and the
referential indicator list. -/
def isQueryAboutCurrentFile (query currentFileName : String) : Bool :=
  let lowerQuery := lowerStr query
  let lowerFileName := lowerStr currentFileName
  if jsIncludes lowerQuery lowerFileName || jsIncludes lowerQuery "this file"
      || jsIncludes lowerQuery "current file" then
    true
  else
    currentFileIndicators.any (fun indicator => jsIncludes lowerQuery indicator)

/-- The 2 000-character truncation of `buildAutoContext`. -/
def truncateAuto (c : String) : String :=
  if c.length > 2000 then strTake c 2000 ++ "\n... (truncated)" else c

/-- The duplicate guard of `buildAutoContext`'s append loop:
`currentFileName && file.path.includes(currentFileName)` (with JS
truthiness, so an empty basename never skips). -/
def skipAsDuplicate (nameOpt : Option String) (p : String) : Bool :=
  match nameOpt with
  | some nm => !(nm = "") && jsIncludes p nm
  | none => false

/-- One appended block of `buildAutoContext`; `i` is the file's index in the
relevant-files array (the numbering the source uses even across skips). -/
def autoBlock (i : Nat) (f : ScoredFile) : String :=
  "--- File " ++ toString (i + 1) ++ ": " ++ f.path ++ " ---\n"
    ++ truncateAuto f.content ++ "\n\n"

/-- The blocks `buildAutoContext` appends: each relevant file in order, with
its index, dropping those the duplicate guard skips. -/
def autoFileBlocks (nameOpt : Option String) (relevantFiles : List ScoredFile) :
    List String :=
  relevantFiles.enum.filterMap (fun p =>
    if skipAsDuplicate nameOpt p.2.path then none else some (autoBlock p.1 p.2))

/-- The broader-query tail of `buildAutoContext`: fetch the top `k` relevant
files and, when any exist, emit the section header followed by the
non-skipped blocks. -/
def autoRelevantSection (E : RegexEngine) (root : FSList) (ign : String → Bool)
    (nameOpt : Option String) (query : String) (k : Int) : String :=
  let relevantFiles := getRelevantFiles E root ign query k
  if relevantFiles.length > 0 then
    "Additional relevant files:\n\n" ++ strJoin (autoFileBlocks nameOpt relevantFiles)
  else ""

/-- `buildAutoContext` (chatProvider.ts).  `m` is the `maxContextFiles`
configuration value, a JS number: `config.get(...) || 3` maps the falsy `0`
(and an unset key) to the fallback `3`, while every other value — negative
ones included — passes through, so `Math.min(maxFiles, 2)` can be negative.
The active-file block is emitted only when both `getCurrentFileContent()`
and `getCurrentFileName()` are truthy, i.e. non-null and non-empty; the
current-file early return then short-circuits the file search entirely. -/
def buildAutoContext (E : RegexEngine) (root : FSList) (ign : String → Bool)
    (active : Option ActiveFile) (m : Int) (query : String) : String :=
  let maxFiles := if m = 0 then 3 else m
  match active with
  | some af =>
    if af.content ≠ "" ∧ af.name ≠ "" then
      let context :=
        "Currently viewing file: " ++ af.relPath ++ "\nContent:\n" ++ af.content ++ "\n\n"
      if isQueryAboutCurrentFile query af.name then
        context ++ ("User is asking about the current file (" ++ af.relPath
          ++ "). Focus primarily on this file.")
      else
        context ++ autoRelevantSection E root ign (some af.name) query (min maxFiles 2)
    else
      autoRelevantSection E root ign (some af.name) query (min maxFiles 2)
  | none => autoRelevantSection E root ign none query (min maxFiles 2)

/-- The 1 500-character truncation of `buildWholeCodebaseContext`. -/
def truncateWhole (c : String) : String :=
  if c.length > 1500 then strTake c 1500 ++ "\n... (truncated)" else c

/-- One per-file block of `buildWholeCodebaseContext`. -/
def wholeBlock (i : Nat) (f : ScoredFile) : String :=
  "--- File " ++ toString (i + 1) ++ ": " ++ f.path ++ " ---\n"
    ++ truncateWhole f.content ++ "\n\n"

/-- All per-file blocks of `buildWholeCodebaseContext`, in order. -/
def wholeBlocks (E : RegexEngine) (root : FSList) (ign : String → Bool) : List String :=
  (getRelevantFiles E root ign "" 20).enum.map (fun p => wholeBlock p.1 p.2)

/-- `buildWholeCodebaseContext` (chatProvider.ts): discovery with the empty
query (which has no tokens, so the content pass never builds a regex) capped
at 20 files, a count header, and 1 500-character truncated blocks. -/
def buildWholeCodebaseContext (E : RegexEngine) (root : FSList)
    (ign : String → Bool) : String :=
  let allFiles := getRelevantFiles E root ign "" 20
  "Entire codebase (" ++ toString allFiles.length ++ " files):\n\n"
    ++ strJoin (wholeBlocks E root ign)

/-- `buildCurrentFileContext` (chatProvider.ts), with the same truthiness
check as `buildAutoContext`. -/
def buildCurrentFileContext (active : Option ActiveFile) : String :=
  match active with
  | some af =>
    if af.content ≠ "" ∧ af.name ≠ "" then
      "Current file: " ++ af.relPath ++ "\n\nContent:\n" ++ af.content
    else "No current file is open."
  | none => "No current file is open."

/-- `buildSelectedFilesContext` (chatProvider.ts): the no-selection notice, or
a count header followed by one block per selected path that matches an
available file (`availableFiles.find(f => f.path === filePath)`); paths with
no match contribute nothing. -/
def buildSelectedFilesContext (avail : List ScoredFile) (selected : List String) :
    String :=
  if selected.length = 0 then
    "No files selected. Please select files using the file selector."
  else
    selected.foldl (fun ctx filePath =>
        match avail.find? (fun f => f.path == filePath) with
        | some file => ctx ++ ("--- File: " ++ file.path ++ " ---\n" ++ file.content ++ "\n\n")
        | none => ctx)
      ("Selected files (" ++ toString selected.length ++ "):\n\n")

/-- The `switch` of `buildContextFromSelection`, dispatching on the mode. -/
def modeContext (E : RegexEngine) (sel : ContextSelection) (avail : List ScoredFile)
    (active : Option ActiveFile) (root : FSList) (ign : String → Bool)
    (m : Int) (query : String) : String :=
  match sel.mode with
  | .current => buildCurrentFileContext active
  | .selected => buildSelectedFilesContext avail sel.selectedFiles
  | .auto => buildAutoContext E root ign active m query
  | .whole => buildWholeCodebaseContext E root ign

/-- `buildContextFromSelection` (chatProvider.ts): run the selected mode's
builder and substitute the fallback notice when the result trims to the
empty string.  The source additionally wraps the whole dispatch in a
`try/catch` that converts any exception into the error-notice string; the
only throwing step of this core, scoring, is already caught inside
`getRelevantFiles` (the `none` branch of the embedding), so the builders
are total and only the empty-context substitution remains observable
here. -/
def buildContextFromSelection (E : RegexEngine) (sel : ContextSelection)
    (avail : List ScoredFile) (active : Option ActiveFile) (root : FSList)
    (ign : String → Bool) (m : Int) (query : String) : String :=
  let context := modeContext E sel avail active root ign m query
  if strTrim context = "" then
    "No specific code context found. Please provide general programming assistance."
  else context

theorem foldl_add_sum (g : String → Nat) :
    ∀ (l : List String) (a : Nat),
      l.foldl (fun s w => s + g w) a = a + (l.map g).sum := by
  intro l
  induction l with
  | nil => intro a; simp
  | cons w l ih => intro a; simp [List.foldl_cons, ih]; omega

theorem foldl_if_add_sum (p : String → Bool) (c : Nat) :
    ∀ (l : List String) (a : Nat),
      l.foldl (fun s w => if p w then s + c else s) a
        = a + (l.map (fun w => if p w then c else 0)).sum := by
  intro l
  induction l with
  | nil => intro a; simp
  | cons w l ih =>
    intro a
    simp only [List.foldl_cons, List.map_cons, List.sum_cons, ih]
    by_cases h : p w
    · simp [h]
      omega
    · simp [h]

theorem sum_map_add (g h : String → Nat) (l : List String) :
    (l.map (fun w => g w + h w)).sum = (l.map g).sum + (l.map h).sum := by
  induction l with
  | nil => simp
  | cons w l ih => simp [ih]; omega

theorem sampleRegexEngine_literalFaithful : sampleRegexEngine.LiteralFaithful := by
  intro pat hpat
  refine ⟨fun content => countOccur pat.data content.data, ?_, fun _ => rfl⟩
  simp only [sampleRegexEngine]
  rw [if_pos hpat]

theorem contentPass_literal (E : RegexEngine) (hE : E.LiteralFaithful)
    (content : String) :
    ∀ (ws : List String) (score : Nat), (∀ w ∈ ws, isLiteralToken w = true) →
      contentPass E content ws score
        = some (score + (ws.map (fun w => min (countOccur w.data content.data) 5)).sum) := by
  intro ws
  induction ws with
  | nil =>
    intro score h
    simp [contentPass]
  | cons w ws ih =>
    intro score h
    obtain ⟨m, hm, hpt⟩ := hE w (h w (by simp))
    rw [contentPass, hm]
    show contentPass E content ws (score + min (m content) 5) = _
    rw [ih _ (fun x hx => h x (by simp [hx])), hpt]
    simp only [List.map_cons, List.sum_cons]
    congr 1
    omega

/-- C1 counterexample: the source does not count occurrences of the token —
it counts matches of the token read as a regular expression.  On the file
(path "x.txt", content "abc", size 3) and query "a.c", the token "a.c" is a
valid regex whose `.` matches the "b", so `content.match(/a.c/gi)` finds one
match and the code's score is 3 (1 content match + size bonus 2), while the
claim's formula — literal occurrences of "a.c" in "abc", of which there are
none — gives 2. -/
theorem relevance_score_regex_vs_literal_cex :
    calculateRelevanceScore sampleRegexEngine ⟨"x.txt", "abc", 3⟩ "a.c" = some 3
    ∧ specRelevanceScore ⟨"x.txt", "abc", 3⟩ "a.c" = 2
    ∧ calculateRelevanceScore sampleRegexEngine ⟨"x.txt", "abc", 3⟩ "a.c"
        ≠ some (specRelevanceScore ⟨"x.txt", "abc", 3⟩ "a.c") :=
  ⟨rfl, rfl, by decide⟩

/-- C1 (amended): for every file and every query all of whose tokens (query
lowercased, whitespace-split, tokens of length ≤ 2 dropped) are free of regex
metacharacters — so that the global regex match the source performs is
literal matching — the relevance score computed by `calculateRelevanceScore`
equals the spec's closed formula: the sum over the tokens of +10 for a path
substring match, +5 when the token contains the extension minus its leading
dot, and the content occurrence count capped at 5, plus the size bonus
(+2 below 1 000, +1 below 5 000, else +0), with no normalization.  (A token
with metacharacters is instead matched as a regex pattern, or throws if
invalid — see the counterexample and C2.) -/
theorem relevance_score_matches_spec_on_literal_tokens (E : RegexEngine)
    (hE : E.LiteralFaithful) (file : CodeFile) (query : String)
    (hq : ∀ w ∈ scoreQueryWords query, isLiteralToken w = true) :
    calculateRelevanceScore E file query = some (specRelevanceScore file query) := by
  simp only [calculateRelevanceScore, specRelevanceScore, specSizeBonus]
  rw [contentPass_literal E hE (lowerStr file.content) (scoreQueryWords query) _ hq]
  unfold specTokenScore
  simp only [foldl_if_add_sum, foldl_add_sum, Nat.zero_add, sum_map_add]
  congr 1
  split
  · omega
  · split <;> omega

theorem relevance_score_matches_spec_on_literal_tokens_witness :
    calculateRelevanceScore sampleRegexEngine ⟨"a.ts", "let x = foo", 11⟩ "foo bar"
      = some (specRelevanceScore ⟨"a.ts", "let x = foo", 11⟩ "foo bar") :=
  relevance_score_matches_spec_on_literal_tokens sampleRegexEngine
    sampleRegexEngine_literalFaithful ⟨"a.ts", "let x = foo", 11⟩ "foo bar"
    (by decide)

/-- C2: the tokenizer of `calculateRelevanceScore` lets a token containing a
regex metacharacter — here `"foo("` from the query `"foo( bar"` — through to
the content-matching pass, where the source hands it verbatim to
`new RegExp(word, 'gi')`; `"foo("` is not a valid regular expression, so that
constructor throws a `SyntaxError` instead of scoring returning a number. -/
theorem regex_metachar_token_reaches_scoring :
    scoreQueryWords "foo( bar" = ["foo(", "bar"] ∧ '(' ∈ "foo(".data :=
  ⟨rfl, by decide⟩

mutual
theorem fsEntryFiles_invariant (ign : String → Bool) (rel : String) (e : FSEntry)
    (f : CodeFile) (hf : f ∈ fsEntryFiles ign rel e) :
    f.size = f.content.length ∧ f.size < 50000 ∧ ign f.path = false := by
  cases e with
  | file name content =>
    simp only [fsEntryFiles] at hf
    split at hf
    · exact absurd hf (List.not_mem_nil f)
    · rename_i hig
      split at hf
      · split at hf
        · rename_i hlen
          rw [List.mem_singleton] at hf
          subst hf
          exact ⟨rfl, hlen, by simpa using hig⟩
        · exact absurd hf (List.not_mem_nil f)
      · exact absurd hf (List.not_mem_nil f)
  | dir name entries =>
    simp only [fsEntryFiles] at hf
    split at hf
    · exact absurd hf (List.not_mem_nil f)
    · exact fsListFiles_invariant ign (joinPath rel name) entries f hf
theorem fsListFiles_invariant (ign : String → Bool) (rel : String) (es : FSList)
    (f : CodeFile) (hf : f ∈ fsListFiles ign rel es) :
    f.size = f.content.length ∧ f.size < 50000 ∧ ign f.path = false := by
  cases es with
  | nil => exact absurd hf (List.not_mem_nil f)
  | cons e rest =>
    rw [fsListFiles, List.mem_append] at hf
    rcases hf with h | h
    · exact fsEntryFiles_invariant ign rel e f h
    · exact fsListFiles_invariant ign rel rest f h
end

/-- C6: every `CodeFile` produced by a discovery pass records
`size = content.length`, stays strictly under the 50 000-character cap
(over-cap files are excluded, never truncated), and has a workspace-relative
path on which the active ignore filter (built-in defaults plus the project
`.gitignore`, modelled as the boolean matcher the walk queries) answered
false. -/
theorem discovery_invariants (ign : String → Bool) (root : FSList) (f : CodeFile)
    (hf : f ∈ getAllCodeFiles ign root) :
    f.size = f.content.length ∧ f.size < 50000 ∧ ign f.path = false :=
  fsListFiles_invariant ign "" root f hf

/-- A two-level workspace used to instantiate the universally quantified
theorems on concrete inputs. -/
def fsSample : FSList :=
  .cons (.file "a.ts" "let x")
    (.cons (.dir "sub" (.cons (.file "b.md" "foo foo") .nil)) .nil)

theorem discovery_invariants_witness :
    (⟨"sub/b.md", "foo foo", 7⟩ : CodeFile) ∈ getAllCodeFiles (fun _ => false) fsSample
    ∧ (7 = ("foo foo" : String).length ∧ 7 < 50000 ∧ (fun (_ : String) => false) "sub/b.md" = false) :=
  ⟨by decide, discovery_invariants (fun _ => false) fsSample ⟨"sub/b.md", "foo foo", 7⟩ (by decide)⟩

theorem mem_insertScored (a c : ScoredFile) :
    ∀ l, c ∈ insertScored a l ↔ c = a ∨ c ∈ l := by
  intro l
  induction l with
  | nil => simp [insertScored]
  | cons b l ih =>
    by_cases h : b.score ≤ a.score
    · simp [insertScored, h]
    · simp only [insertScored, if_neg h, List.mem_cons, ih]
      tauto

theorem pairwise_insertScored (a : ScoredFile) (l : List ScoredFile)
    (hl : l.Pairwise (fun x y => y.score ≤ x.score)) :
    (insertScored a l).Pairwise (fun x y => y.score ≤ x.score) := by
  induction l with
  | nil => simp [insertScored]
  | cons b l ih =>
    rw [List.pairwise_cons] at hl
    obtain ⟨hb, hl⟩ := hl
    by_cases h : b.score ≤ a.score
    · rw [insertScored, if_pos h, List.pairwise_cons]
      refine ⟨?_, ?_⟩
      · intro c hc
        rcases List.mem_cons.mp hc with rfl | hc
        · exact h
        · exact le_trans (hb c hc) h
      · rw [List.pairwise_cons]
        exact ⟨hb, hl⟩
    · rw [insertScored, if_neg h, List.pairwise_cons]
      refine ⟨?_, ih hl⟩
      intro c hc
      rcases (mem_insertScored a c l).mp hc with rfl | hc
      · omega
      · exact hb c hc

theorem sortByScoreDesc_pairwise :
    ∀ l, (sortByScoreDesc l).Pairwise (fun x y => y.score ≤ x.score) := by
  intro l
  induction l with
  | nil => simp [sortByScoreDesc]
  | cons a l ih => exact pairwise_insertScored a (sortByScoreDesc l) ih

theorem perm_insertScored (a : ScoredFile) :
    ∀ l, List.Perm (insertScored a l) (a :: l) := by
  intro l
  induction l with
  | nil => simp [insertScored]
  | cons b l ih =>
    by_cases h : b.score ≤ a.score
    · rw [insertScored, if_pos h]
    · rw [insertScored, if_neg h]
      exact List.Perm.trans (List.Perm.cons b ih) (List.Perm.swap a b l)

theorem sortByScoreDesc_perm : ∀ l, List.Perm (sortByScoreDesc l) l := by
  intro l
  induction l with
  | nil => exact List.Perm.refl []
  | cons a l ih =>
    exact List.Perm.trans (perm_insertScored a (sortByScoreDesc l))
      (List.Perm.cons a ih)

theorem filter_insertScored (s : Nat) (a : ScoredFile) :
    ∀ l, (insertScored a l).filter (fun f => f.score == s)
      = if a.score == s then a :: l.filter (fun f => f.score == s)
        else l.filter (fun f => f.score == s) := by
  intro l
  induction l with
  | nil =>
    by_cases ha : a.score = s
    · simp [insertScored, ha]
    · simp [insertScored, ha]
  | cons b l ih =>
    by_cases h : b.score ≤ a.score
    · rw [insertScored, if_pos h]
      by_cases ha : a.score = s
      · simp [List.filter_cons, ha]
      · simp [List.filter_cons, ha]
    · rw [insertScored, if_neg h, List.filter_cons, ih]
      by_cases ha : a.score = s
      · have hb : ¬ b.score = s := by omega
        simp [List.filter_cons, ha, hb]
      · simp [List.filter_cons, ha]

theorem sortByScoreDesc_filter (s : Nat) :
    ∀ l, (sortByScoreDesc l).filter (fun f => f.score == s)
      = l.filter (fun f => f.score == s) := by
  intro l
  induction l with
  | nil => rfl
  | cons a l ih =>
    rw [sortByScoreDesc, filter_insertScored, ih, List.filter_cons]

/-- C7 counterexample: at the query "foo( bar" on a non-empty workspace
(two discovered files), scoring throws on the invalid-regex token "foo(",
`getRelevantFiles`' catch returns the empty list, and so it does not return
the discovered files ordered by non-increasing score, refuting the
universally quantified claim. -/
theorem ranking_error_path_cex :
    getRelevantFiles sampleRegexEngine fsSample (fun _ => false) "foo( bar" 5 = []
    ∧ (getAllCodeFiles (fun _ => false) fsSample).length = 2
    ∧ scoredDiscovery sampleRegexEngine fsSample (fun _ => false) "foo( bar" = none :=
  ⟨rfl, rfl, rfl⟩

/-- C7 (amended): scoring is deterministic (equal inputs give equal results,
equal failures included); whenever scoring succeeds on the discovered files,
`getRelevantFiles` slices (by `slice(0, maxFiles)`) the scored discovery
output sorted by non-increasing score by a stable sort — pairwise
descending, restricting the sorted list to any fixed score level reproduces
the discovery order, and sorting permutes the scored list — while a scoring
throw (an invalid-regex token, C2) is caught and yields the empty list
instead. -/
theorem ranking_deterministic_and_stable (E : RegexEngine) (root : FSList)
    (ign : String → Bool) (query : String) (maxFiles : Int) :
    (∀ scored, scoredDiscovery E root ign query = some scored →
      getRelevantFiles E root ign query maxFiles
        = jsSlice (sortByScoreDesc scored) maxFiles)
    ∧ (scoredDiscovery E root ign query = none →
      getRelevantFiles E root ign query maxFiles = [])
    ∧ (∀ scored : List ScoredFile,
        (sortByScoreDesc scored).Pairwise (fun x y => y.score ≤ x.score)
        ∧ (∀ s : Nat, (sortByScoreDesc scored).filter (fun f => f.score == s)
            = scored.filter (fun f => f.score == s))
        ∧ List.Perm (sortByScoreDesc scored) scored)
    ∧ ∀ (f₁ f₂ : CodeFile) (q₁ q₂ : String), f₁ = f₂ → q₁ = q₂ →
        calculateRelevanceScore E f₁ q₁ = calculateRelevanceScore E f₂ q₂ := by
  refine ⟨?_, ?_, ?_, ?_⟩
  · intro scored h
    rw [getRelevantFiles, h]
  · intro h
    rw [getRelevantFiles, h]
  · intro scored
    exact ⟨sortByScoreDesc_pairwise _, fun s => sortByScoreDesc_filter s _,
      sortByScoreDesc_perm _⟩
  · intro f₁ f₂ q₁ q₂ hf hq
    rw [hf, hq]

theorem ranking_deterministic_and_stable_witness :
    getRelevantFiles sampleRegexEngine fsSample (fun _ => false) "foo" 1
      = jsSlice (sortByScoreDesc
          [⟨⟨"a.ts", "let x", 5⟩, 2⟩, ⟨⟨"sub/b.md", "foo foo", 7⟩, 4⟩]) 1
    ∧ getRelevantFiles sampleRegexEngine fsSample (fun _ => false) "foo( bar" 7 = []
    ∧ calculateRelevanceScore sampleRegexEngine ⟨"a.ts", "let x", 5⟩ "foo"
        = calculateRelevanceScore sampleRegexEngine ⟨"a.ts", "let x", 5⟩ "foo" :=
  ⟨(ranking_deterministic_and_stable sampleRegexEngine fsSample (fun _ => false)
      "foo" 1).1 [⟨⟨"a.ts", "let x", 5⟩, 2⟩, ⟨⟨"sub/b.md", "foo foo", 7⟩, 4⟩] rfl,
   (ranking_deterministic_and_stable sampleRegexEngine fsSample (fun _ => false)
      "foo( bar" 7).2.1 rfl,
   (ranking_deterministic_and_stable sampleRegexEngine fsSample (fun _ => false)
      "foo" 1).2.2.2 ⟨"a.ts", "let x", 5⟩ ⟨"a.ts", "let x", 5⟩ "foo" "foo" rfl rfl⟩

/-- C3 counterexample: an active file can be open with empty content, and
`getCurrentFileContent()` then returns the empty string, which is falsy, so
`buildAutoContext` never emits the active-file block and never consults
`isQueryAboutCurrentFile`: the referential query "explain this function"
falls through to the file search and the returned context consists of other
files' blocks with no focus instruction — not "only the active file's label
and full content plus an instruction to focus on it". -/
theorem auto_mode_empty_active_file_cex :
    buildAutoContext sampleRegexEngine fsSample (fun _ => false)
        (some ⟨"empty.ts", "empty.ts", ""⟩) 5 "explain this function"
      = "Additional relevant files:\n\n--- File 1: a.ts ---\nlet x\n\n--- File 2: sub/b.md ---\nfoo foo\n\n"
    ∧ jsIncludes
        (buildAutoContext sampleRegexEngine fsSample (fun _ => false)
          (some ⟨"empty.ts", "empty.ts", ""⟩) 5 "explain this function")
        "Focus primarily on this file." = false
    ∧ jsIncludes
        (buildAutoContext sampleRegexEngine fsSample (fun _ => false)
          (some ⟨"empty.ts", "empty.ts", ""⟩) 5 "explain this function")
        "sub/b.md" = true :=
  ⟨rfl, rfl, rfl⟩

/-- C3 (amended): in auto mode, if an active file with non-empty content and
non-empty basename is open and the query references the current file per
`isQueryAboutCurrentFile` (basename, "this file", "current file", or one of
the fixed referential phrasings, case-insensitively), the returned context is
exactly the active file's label and full content plus the focus instruction —
no additional files, whatever the workspace contains; and the query
"explain this function" triggers this path for every basename. -/
theorem auto_mode_current_file_query_short_circuits
    (E : RegexEngine) (root : FSList) (ign : String → Bool) (m : Int)
    (query : String)
    (af : ActiveFile) (hc : af.content ≠ "") (hn : af.name ≠ "")
    (hq : isQueryAboutCurrentFile query af.name = true) :
    buildAutoContext E root ign (some af) m query
      = "Currently viewing file: " ++ af.relPath ++ "\nContent:\n" ++ af.content ++ "\n\n"
        ++ ("User is asking about the current file (" ++ af.relPath
          ++ "). Focus primarily on this file.")
    ∧ ∀ nm : String, isQueryAboutCurrentFile "explain this function" nm = true := by
  constructor
  · simp only [buildAutoContext]
    rw [if_pos ⟨hc, hn⟩, if_pos hq]
  · intro nm
    rw [isQueryAboutCurrentFile]
    split
    · rfl
    · rfl

theorem auto_mode_current_file_query_short_circuits_witness :
    buildAutoContext sampleRegexEngine fsSample (fun _ => false)
        (some ⟨"src/main.ts", "main.ts", "let x"⟩) 5 "explain this function"
      = "Currently viewing file: src/main.ts\nContent:\nlet x\n\n"
        ++ ("User is asking about the current file (src/main.ts). Focus primarily on this file.") :=
  (auto_mode_current_file_query_short_circuits sampleRegexEngine fsSample
    (fun _ => false) 5 "explain this function" ⟨"src/main.ts", "main.ts", "let x"⟩
    (by decide) (by decide) (by rfl)).1

/-- A flat four-file workspace exhibiting the negative-`maxContextFiles`
behavior of `slice(0, negative)`. -/
def fsBig : FSList :=
  .cons (.file "a.ts" "aa")
    (.cons (.file "b.ts" "bb")
      (.cons (.file "c.ts" "cc")
        (.cons (.file "d.ts" "dd") .nil)))

theorem jsSlice_length_le_int {α : Type} (l : List α) (k : Int) (hk : 0 ≤ k) :
    ((jsSlice l k).length : Int) ≤ k := by
  rw [jsSlice, if_neg (by omega), List.length_take]
  have h1 : min k.toNat l.length ≤ k.toNat := min_le_left _ _
  omega

theorem getRelevantFiles_length_le_int (E : RegexEngine) (root : FSList)
    (ign : String → Bool) (query : String) (k : Int) (hk : 0 ≤ k) :
    ((getRelevantFiles E root ign query k).length : Int) ≤ k := by
  cases h : scoredDiscovery E root ign query with
  | none =>
    rw [getRelevantFiles, h]
    simpa using hk
  | some scored =>
    rw [getRelevantFiles, h]
    exact jsSlice_length_le_int _ k hk

theorem getRelevantFiles_length_le_nat (E : RegexEngine) (root : FSList)
    (ign : String → Bool) (query : String) (n : Nat) :
    (getRelevantFiles E root ign query (n : Int)).length ≤ n := by
  have h := getRelevantFiles_length_le_int E root ign query (n : Int) (by omega)
  omega

/-- C4 counterexample: with `maxContextFiles` set to 0 the source's
`config.get('maxContextFiles') || 3` replaces the falsy 0 by 3, so in auto
mode with no active file the assembler appends 2 file blocks even though
min(maxContextFiles, 2) = min(0, 2) = 0; and with `maxContextFiles` set to
-1 (truthy, so it passes the fallback) the slice end `Math.min(-1, 2) = -1`
makes `slice(0, -1)` keep all but the last scored file — 3 blocks from a
four-file workspace — so no bound of the form min(maxContextFiles, 2), nor
any 2-block cap, holds there.  Both refute the claim as stated. -/
theorem auto_mode_zero_config_cex :
    buildAutoContext sampleRegexEngine fsSample (fun _ => false) none 0 "database"
      = "Additional relevant files:\n\n--- File 1: a.ts ---\nlet x\n\n--- File 2: sub/b.md ---\nfoo foo\n\n"
    ∧ (autoFileBlocks none
        (getRelevantFiles sampleRegexEngine fsSample (fun _ => false) "database"
          (min (if (0 : Int) = 0 then 3 else 0) 2))).length = 2
    ∧ ¬ ((2 : Int) ≤ min (0 : Int) 2)
    ∧ (autoFileBlocks none
        (getRelevantFiles sampleRegexEngine fsBig (fun _ => false) "database"
          (min (if (-1 : Int) = 0 then 3 else (-1)) 2))).length = 3
    ∧ ¬ ((3 : Int) ≤ 2) :=
  ⟨rfl, rfl, by decide, rfl, by decide⟩

/-- C4 (amended): in auto mode, when the query does not reference the current
file and `maxContextFiles` is non-negative, the assembler appends at most
min(m', 2) scored file blocks after the optional active-file block, where m'
is `maxContextFiles` with the source's `|| 3` fallback applied to 0 — hence
never more than 2 in that regime; every appended block (for any
`maxContextFiles`) comes from a relevant file whose path does not contain
the active file's basename (the duplicate guard), and carries the file's
content truncated to its first 2 000 characters plus the "... (truncated)"
marker exactly when the content is longer than 2 000 characters. -/
theorem auto_mode_append_cap_skip_truncate
    (E : RegexEngine) (root : FSList) (ign : String → Bool) (query : String)
    (m : Int) (nameOpt : Option String) :
    (0 ≤ m →
      ((autoFileBlocks nameOpt
          (getRelevantFiles E root ign query (min (if m = 0 then 3 else m) 2))).length : Int)
        ≤ min (if m = 0 then 3 else m) 2)
    ∧ (∀ b ∈ autoFileBlocks nameOpt
          (getRelevantFiles E root ign query (min (if m = 0 then 3 else m) 2)),
        ∃ i f, (i, f) ∈ (getRelevantFiles E root ign query (min (if m = 0 then 3 else m) 2)).enum
          ∧ skipAsDuplicate nameOpt f.path = false
          ∧ b = "--- File " ++ toString (i + 1) ++ ": " ++ f.path ++ " ---\n"
              ++ (if f.content.length > 2000 then strTake f.content 2000 ++ "\n... (truncated)"
                  else f.content) ++ "\n\n")
    ∧ buildAutoContext E root ign none m query
        = autoRelevantSection E root ign none query (min (if m = 0 then 3 else m) 2)
    ∧ ∀ af : ActiveFile, af.content ≠ "" → af.name ≠ "" →
        isQueryAboutCurrentFile query af.name = false →
        buildAutoContext E root ign (some af) m query
          = "Currently viewing file: " ++ af.relPath ++ "\nContent:\n" ++ af.content ++ "\n\n"
            ++ autoRelevantSection E root ign (some af.name) query
                (min (if m = 0 then 3 else m) 2) := by
  refine ⟨?_, ?_, rfl, ?_⟩
  · intro hm
    have hk : 0 ≤ min (if m = 0 then 3 else m) 2 := by
      split <;> omega
    have h1 : (autoFileBlocks nameOpt
          (getRelevantFiles E root ign query (min (if m = 0 then 3 else m) 2))).length
        ≤ (getRelevantFiles E root ign query (min (if m = 0 then 3 else m) 2)).length := by
      calc (autoFileBlocks nameOpt
            (getRelevantFiles E root ign query (min (if m = 0 then 3 else m) 2))).length
          ≤ (getRelevantFiles E root ign query
              (min (if m = 0 then 3 else m) 2)).enum.length :=
            List.length_filterMap_le _ _
        _ = (getRelevantFiles E root ign query
              (min (if m = 0 then 3 else m) 2)).length := List.enum_length
    have h2 := getRelevantFiles_length_le_int E root ign query _ hk
    omega
  · intro b hb
    rw [autoFileBlocks, List.mem_filterMap] at hb
    obtain ⟨⟨i, f⟩, hmem, hsome⟩ := hb
    refine ⟨i, f, hmem, ?_, ?_⟩
    · by_cases hskip : skipAsDuplicate nameOpt f.path
      · rw [if_pos hskip] at hsome
        exact absurd hsome (by simp)
      · simpa using hskip
    · by_cases hskip : skipAsDuplicate nameOpt f.path
      · rw [if_pos hskip] at hsome
        exact absurd hsome (by simp)
      · rw [if_neg hskip] at hsome
        have hb' := Option.some.inj hsome
        rw [← hb', autoBlock, truncateAuto]
  · intro af hc hn hq
    simp only [buildAutoContext]
    rw [if_pos ⟨hc, hn⟩, if_neg (by simp [hq])]

theorem auto_mode_append_cap_skip_truncate_witness :
    buildAutoContext sampleRegexEngine fsSample (fun _ => false)
        (some ⟨"src/app.ts", "app.ts", "x"⟩) 5 "database"
      = "Currently viewing file: src/app.ts\nContent:\nx\n\n"
        ++ autoRelevantSection sampleRegexEngine fsSample (fun _ => false)
            (some "app.ts") "database" (min (if (5 : Int) = 0 then 3 else 5) 2)
    ∧ ((autoFileBlocks (some "app.ts")
          (getRelevantFiles sampleRegexEngine fsSample (fun _ => false) "database"
            (min (if (5 : Int) = 0 then 3 else 5) 2))).length : Int)
        ≤ min (if (5 : Int) = 0 then 3 else 5) 2
    ∧ (∃ i f,
        (i, f) ∈ (getRelevantFiles sampleRegexEngine fsSample (fun _ => false) "database"
            (min (if (5 : Int) = 0 then 3 else 5) 2)).enum
        ∧ skipAsDuplicate (some "app.ts") f.path = false
        ∧ "--- File 1: a.ts ---\nlet x\n\n"
            = "--- File " ++ toString (i + 1) ++ ": " ++ f.path ++ " ---\n"
              ++ (if f.content.length > 2000 then strTake f.content 2000 ++ "\n... (truncated)"
                  else f.content) ++ "\n\n") :=
  ⟨(auto_mode_append_cap_skip_truncate sampleRegexEngine fsSample (fun _ => false)
      "database" 5 (some "app.ts")).2.2.2 ⟨"src/app.ts", "app.ts", "x"⟩
      (by decide) (by decide) (by rfl),
   (auto_mode_append_cap_skip_truncate sampleRegexEngine fsSample (fun _ => false)
      "database" 5 (some "app.ts")).1 (by decide),
   (auto_mode_append_cap_skip_truncate sampleRegexEngine fsSample (fun _ => false)
      "database" 5 (some "app.ts")).2.1 "--- File 1: a.ts ---\nlet x\n\n" (by decide)⟩

theorem strTake_length (s : String) (n : Nat) : (strTake s n).length = min n s.length := by
  rw [strTake, String.length_mk, List.length_take, String.length]

/-- C5: in whole mode the context is the count header followed by the blocks
built from discovery with the empty query; there are at most 20 blocks, and
each block's content part is the file's content truncated at 1 500
characters, so it never exceeds 1 500 characters plus the
"... (truncated)" marker. -/
theorem whole_mode_bounds (E : RegexEngine) (root : FSList) (ign : String → Bool) :
    buildWholeCodebaseContext E root ign
      = "Entire codebase (" ++ toString (getRelevantFiles E root ign "" 20).length
        ++ " files):\n\n" ++ strJoin (wholeBlocks E root ign)
    ∧ (wholeBlocks E root ign).length ≤ 20
    ∧ ∀ b ∈ wholeBlocks E root ign, ∃ i f,
        (i, f) ∈ (getRelevantFiles E root ign "" 20).enum
        ∧ b = "--- File " ++ toString (i + 1) ++ ": " ++ f.path ++ " ---\n"
            ++ truncateWhole f.content ++ "\n\n"
        ∧ (truncateWhole f.content).length ≤ 1500 + ("\n... (truncated)" : String).length := by
  refine ⟨rfl, ?_, ?_⟩
  · calc (wholeBlocks E root ign).length
        = (getRelevantFiles E root ign "" 20).enum.length := List.length_map _ _
      _ = (getRelevantFiles E root ign "" 20).length := List.enum_length
      _ ≤ 20 := getRelevantFiles_length_le_nat E root ign "" 20
  · intro b hb
    rw [wholeBlocks, List.mem_map] at hb
    obtain ⟨⟨i, f⟩, hmem, hb'⟩ := hb
    refine ⟨i, f, hmem, by rw [← hb', wholeBlock], ?_⟩
    rw [truncateWhole]
    by_cases h : f.content.length > 1500
    · rw [if_pos h, String.length_append, strTake_length]
      omega
    · rw [if_neg h]
      omega

theorem whole_mode_bounds_witness :
    (wholeBlocks sampleRegexEngine fsSample (fun _ => false)).length ≤ 20
    ∧ buildWholeCodebaseContext sampleRegexEngine fsSample (fun _ => false)
      = "Entire codebase ("
        ++ toString (getRelevantFiles sampleRegexEngine fsSample (fun _ => false) "" 20).length
        ++ " files):\n\n" ++ strJoin (wholeBlocks sampleRegexEngine fsSample (fun _ => false))
    ∧ (∃ i f, (i, f) ∈ (getRelevantFiles sampleRegexEngine fsSample (fun _ => false) "" 20).enum
        ∧ "--- File 1: a.ts ---\nlet x\n\n"
            = "--- File " ++ toString (i + 1) ++ ": " ++ f.path ++ " ---\n"
              ++ truncateWhole f.content ++ "\n\n"
        ∧ (truncateWhole f.content).length ≤ 1500 + ("\n... (truncated)" : String).length) :=
  ⟨(whole_mode_bounds sampleRegexEngine fsSample (fun _ => false)).2.1,
   (whole_mode_bounds sampleRegexEngine fsSample (fun _ => false)).1,
   (whole_mode_bounds sampleRegexEngine fsSample (fun _ => false)).2.2
     "--- File 1: a.ts ---\nlet x\n\n" (by decide)⟩

theorem mem_dropWhile_of_not (p : Char → Bool) (c : Char) (hc : p c = false) :
    ∀ l : List Char, c ∈ l → c ∈ l.dropWhile p := by
  intro l
  induction l with
  | nil => simp
  | cons a l ih =>
    intro hm
    rw [List.dropWhile_cons]
    by_cases ha : p a
    · rw [if_pos ha]
      rcases List.mem_cons.mp hm with rfl | hm
      · rw [hc] at ha
        exact absurd ha (by simp)
      · exact ih hm
    · rw [if_neg ha]
      exact hm

theorem strTrim_ne_empty (s : String) (c : Char) (hmem : c ∈ s.data)
    (hc : c.isWhitespace = false) : strTrim s ≠ "" := by
  intro h
  have hdata : ((s.data.dropWhile Char.isWhitespace).reverse.dropWhile
      Char.isWhitespace).reverse = [] := congrArg String.data h
  rw [List.reverse_eq_nil_iff, List.dropWhile_eq_nil_iff] at hdata
  have h1 : c ∈ s.data.dropWhile Char.isWhitespace :=
    mem_dropWhile_of_not Char.isWhitespace c hc s.data hmem
  have h2 := hdata c (List.mem_reverse.mpr h1)
  rw [hc] at h2
  exact absurd h2 (by simp)

theorem strAppend_assoc (a b c : String) : a ++ b ++ c = a ++ (b ++ c) :=
  String.ext (by
    rw [String.data_append, String.data_append, String.data_append,
      String.data_append, List.append_assoc])

theorem strAppend_empty (s : String) : s ++ "" = s :=
  String.ext (by
    rw [String.data_append]
    exact List.append_nil s.data)

/-- C8: context assembly is total — the dispatch plus the empty-context guard
is a function of its inputs (the source's boundary `try/catch` converts any
assembly exception to a notice, and the one throwing step, scoring, is
already caught inside `getRelevantFiles`) — and whenever the mode's
assembled string is empty or whitespace-only the literal fallback notice is
returned, so the overall result never trims to the empty string. -/
theorem context_assembly_never_empty (E : RegexEngine) (sel : ContextSelection)
    (avail : List ScoredFile) (active : Option ActiveFile) (root : FSList)
    (ign : String → Bool) (m : Int) (query : String) :
    strTrim (buildContextFromSelection E sel avail active root ign m query) ≠ ""
    ∧ (strTrim (modeContext E sel avail active root ign m query) = "" →
        buildContextFromSelection E sel avail active root ign m query
          = "No specific code context found. Please provide general programming assistance.") := by
  constructor
  · simp only [buildContextFromSelection]
    by_cases h : strTrim (modeContext E sel avail active root ign m query) = ""
    · rw [if_pos h]
      decide
    · rw [if_neg h]
      exact h
  · intro h
    simp only [buildContextFromSelection]
    rw [if_pos h]

theorem context_assembly_never_empty_witness :
    buildContextFromSelection sampleRegexEngine ⟨.auto, []⟩ [] none .nil
        (fun _ => false) 5 "hello"
      = "No specific code context found. Please provide general programming assistance." :=
  (context_assembly_never_empty sampleRegexEngine ⟨.auto, []⟩ [] none .nil
    (fun _ => false) 5 "hello").2 (by rfl)

theorem selected_foldl_join (avail : List ScoredFile) :
    ∀ (sel : List String) (init : String),
      sel.foldl (fun ctx filePath =>
          match avail.find? (fun f => f.path == filePath) with
          | some file =>
            ctx ++ ("--- File: " ++ file.path ++ " ---\n" ++ file.content ++ "\n\n")
          | none => ctx) init
        = init ++ strJoin (sel.filterMap (fun filePath =>
            (avail.find? (fun f => f.path == filePath)).map
              (fun file => "--- File: " ++ file.path ++ " ---\n" ++ file.content ++ "\n\n"))) := by
  intro sel
  induction sel with
  | nil =>
    intro init
    rw [List.foldl_nil, List.filterMap_nil, strJoin, strAppend_empty]
  | cons fp sel ih =>
    intro init
    rw [List.foldl_cons, List.filterMap_cons]
    cases hfind : avail.find? (fun f => f.path == fp) with
    | none =>
      simp only [hfind, Option.map_none']
      exact ih init
    | some file =>
      simp only [hfind, Option.map_some']
      rw [strJoin, ih, strAppend_assoc]

/-- C9: in selected mode an empty selection returns the literal no-selection
notice (and `buildContextFromSelection` passes it through — no fallback to
another mode); a non-empty selection yields the count header followed by one
header-plus-full-content block per selected path that matches an available
file, while paths with no match (stale selections) contribute nothing and
raise no error. -/
theorem selected_mode_behavior (E : RegexEngine) (avail : List ScoredFile)
    (sel : List String) (active : Option ActiveFile) (root : FSList)
    (ign : String → Bool) (m : Int) (query : String) :
    (sel = [] →
      buildSelectedFilesContext avail sel
          = "No files selected. Please select files using the file selector."
        ∧ buildContextFromSelection E ⟨.selected, sel⟩ avail active root ign m query
          = "No files selected. Please select files using the file selector.")
    ∧ (sel ≠ [] →
        buildSelectedFilesContext avail sel
          = "Selected files (" ++ toString sel.length ++ "):\n\n"
            ++ strJoin (sel.filterMap (fun filePath =>
                (avail.find? (fun f => f.path == filePath)).map
                  (fun file =>
                    "--- File: " ++ file.path ++ " ---\n" ++ file.content ++ "\n\n")))) := by
  constructor
  · rintro rfl
    exact ⟨rfl, rfl⟩
  · intro h
    rw [buildSelectedFilesContext, if_neg (fun hl => h (List.length_eq_zero.mp hl))]
    exact selected_foldl_join avail sel _

theorem selected_mode_behavior_witness :
    buildSelectedFilesContext [⟨⟨"a.ts", "let x", 5⟩, 3⟩] ["a.ts", "gone.ts"]
      = "Selected files (2):\n\n--- File: a.ts ---\nlet x\n\n"
    ∧ buildContextFromSelection sampleRegexEngine ⟨.selected, []⟩
        [⟨⟨"a.ts", "let x", 5⟩, 3⟩] none fsSample (fun _ => false) 5 "q"
      = "No files selected. Please select files using the file selector." :=
  ⟨((selected_mode_behavior sampleRegexEngine [⟨⟨"a.ts", "let x", 5⟩, 3⟩]
      ["a.ts", "gone.ts"] none fsSample (fun _ => false) 5 "q").2 (by decide)).trans rfl,
   ((selected_mode_behavior sampleRegexEngine [⟨⟨"a.ts", "let x", 5⟩, 3⟩] []
      none fsSample (fun _ => false) 5 "q").1 rfl).2⟩

/-- C10: a non-empty selection in which no path matches an available file
produces exactly the count header with zero file blocks; the header does not
trim to the empty string, so `buildContextFromSelection` forwards it as-is —
the model receives a context announcing N files while containing none of
their contents. -/
theorem selected_mode_stale_header (E : RegexEngine) (avail : List ScoredFile)
    (sel : List String) (active : Option ActiveFile) (root : FSList)
    (ign : String → Bool) (m : Int) (query : String) (hne : sel ≠ [])
    (hstale : ∀ p ∈ sel, avail.find? (fun f => f.path == p) = none) :
    buildSelectedFilesContext avail sel
      = "Selected files (" ++ toString sel.length ++ "):\n\n"
    ∧ buildContextFromSelection E ⟨.selected, sel⟩ avail active root ign m query
      = "Selected files (" ++ toString sel.length ++ "):\n\n" := by
  have hempty : sel.filterMap (fun filePath =>
      (avail.find? (fun f => f.path == filePath)).map
        (fun file => "--- File: " ++ file.path ++ " ---\n" ++ file.content ++ "\n\n")) = [] := by
    rw [List.filterMap_eq_nil_iff]
    intro p hp
    rw [hstale p hp]
    rfl
  have hbase : buildSelectedFilesContext avail sel
      = "Selected files (" ++ toString sel.length ++ "):\n\n" := by
    rw [buildSelectedFilesContext, if_neg (fun hl => hne (List.length_eq_zero.mp hl)),
      selected_foldl_join avail sel, hempty]
    exact strAppend_empty _
  have hmemS : 'S' ∈ ("Selected files (" ++ toString sel.length ++ "):\n\n").data := by
    rw [String.data_append, String.data_append]
    exact List.mem_append_left _ (List.mem_append_left _ (by decide))
  refine ⟨hbase, ?_⟩
  simp only [buildContextFromSelection, modeContext]
  rw [hbase, if_neg (strTrim_ne_empty _ 'S' hmemS (by decide))]

theorem selected_mode_stale_header_witness :
    buildContextFromSelection sampleRegexEngine ⟨.selected, ["gone.ts"]⟩ [] none
        fsSample (fun _ => false) 5 "q"
      = "Selected files (1):\n\n" :=
  ((selected_mode_stale_header sampleRegexEngine [] ["gone.ts"] none fsSample
      (fun _ => false) 5 "q" (by decide) (fun p _ => rfl)).2).trans rfl

end CodebaseCopilot
